import Mathlib

/-!
# Verification of the neurolab data-interface core

Shallow embedding of the neurolab repository's artifact-collection engine and
manifest-diff algorithm, translated from:

* `src/neurolab/data_interface/models.py` (DataSourceSpec, Artifact, Manifest,
  `to_dict` / `from_dict` serialization),
* `src/neurolab/data_interface/collectors.py` (glob filtering, media-type
  inference, `FilesystemCollector.collect`),
* `src/neurolab/data_interface/orchestrator.py` (`collect_source`),
* the pure diff algorithm of the `diff` command in
  `src/neurolab/interfaces/cli.py`.

Python dictionaries produced by `to_dict` are modelled by the inductive
`PyValue` universe (assoc lists with string keys, later keys shadowing
earlier ones as in a Python dict).  Python `datetime` objects are modelled by
`PyDatetime`; the stdlib pair `datetime.isoformat` / `datetime.fromisoformat`
is a bijection between datetimes and their ISO-8601 strings, which the
embedding represents abstractly by the dedicated `PyValue.dtStr` constructor
(the ISO string of the carried datetime) rather than by reimplementing the
calendar arithmetic.  Filesystem effects (`stat`, hashing, directory walks)
are modelled by an explicit `FileSystem` record of oracles, and `uuid4` by an
indexed supply of identifier strings.
-/

namespace Neurolab

/-- Model of a Python `datetime`: an instant plus whether the object is
timezone-aware (`tzinfo is not None`).  The numeric field is opaque to all of
the embedded code, which only ever compares datetimes for equality. -/
structure PyDatetime where
  epochMicros : Int
  tzAware : Bool
deriving DecidableEq, Repr

/-- Universe of Python values that appear in `to_dict` dictionaries.
`dtStr d` stands for the string `d.isoformat()`; `dict` entries keep
insertion order and have pairwise distinct keys when built by the embedded
code. -/
inductive PyValue where
  | none
  | bool (b : Bool)
  | int (n : Int)
  | str (s : String)
  | dtStr (d : PyDatetime)
  | list (xs : List PyValue)
  | dict (entries : List (String × PyValue))

/-- Python `v == s` for a string literal `s`: true exactly when `v` is a
string equal to `s` (Python equality across types is `False`, never an
error). -/
def pyEqStr (v : PyValue) (s : String) : Bool :=
  match v with
  | PyValue.str t => t = s
  | _ => false

/-- Python truthiness (`if x:`) for the modelled values.  An ISO datetime
string is never empty, so `dtStr` is always truthy. -/
def pyTruthy : PyValue → Bool
  | PyValue.none => false
  | PyValue.bool b => b
  | PyValue.int n => decide (n ≠ 0)
  | PyValue.str s => !s.isEmpty
  | PyValue.dtStr _ => true
  | PyValue.list xs => !xs.isEmpty
  | PyValue.dict es => !es.isEmpty

/-- `d[k]` / `d.get(k)` on a modelled dict (keys are unique, so the first
match is the binding). -/
def pyGet (d : List (String × PyValue)) (k : String) : Option PyValue :=
  (d.find? (fun e => e.1 = k)).map (fun e => e.2)

/-- `d.get(k, v)`. -/
def pyGetD (d : List (String × PyValue)) (k : String) (v : PyValue) : PyValue :=
  (pyGet d k).getD v

/-- `k in d`. -/
def pyHasKey (d : List (String × PyValue)) (k : String) : Bool :=
  (pyGet d k).isSome

/-- `datetime.fromisoformat` applied to a stored value: succeeds exactly on
ISO datetime strings (represented by `dtStr`), raises `ValueError` on other
strings and `TypeError` on non-strings, as the stdlib does. -/
def fromisoformat : PyValue → Except String PyDatetime
  | PyValue.dtStr d => Except.ok d
  | PyValue.str _ => Except.error "Invalid isoformat string"
  | _ => Except.error "fromisoformat: argument must be str"

/-! ## Data model (`models.py`)

Python's `Literal` annotations are not enforced at runtime, so `source_type`
and `artifact_type` are embedded as plain strings; `from_dict` performs the
membership checks the source performs.  The Lean structures type the fields
the way the dataclasses intend to use them; where Python passes dictionary
values through untyped, small re-typing functions (`decodeStr`, ...) mediate,
and they are inverse to the encoding on every value `to_dict` produces. -/

structure DataSourceSpec where
  uri : String
  source_type : String := "filesystem"
  include_globs : Option (List String) := Option.none
  exclude_globs : Option (List String) := Option.none
  compute_hash : Bool := true
  recursive : Bool := true
  hints : List (String × PyValue) := []

structure Artifact where
  source_uri : String
  artifact_type : String
  relative_path : Option String
  absolute_path : Option String
  size_bytes : Option Int
  mtime : Option PyDatetime
  content_hash : Option String
  media_type : Option String
  artifact_id : String
  tags : List (String × String)
deriving DecidableEq, Repr

structure Manifest where
  manifest_id : String
  source : DataSourceSpec
  created_at : PyDatetime
  artifacts : List Artifact
  warnings : List String := []

/-- Re-typing helper: the string a Python assignment would store. -/
def decodeStr : PyValue → String
  | PyValue.str s => s
  | _ => ""

def decodeOptStr : PyValue → Option String
  | PyValue.str s => some s
  | _ => Option.none

def decodeOptInt : PyValue → Option Int
  | PyValue.int n => some n
  | _ => Option.none

def decodeBool : PyValue → Bool
  | PyValue.bool b => b
  | _ => false

def decodeOptStrList : PyValue → Option (List String)
  | PyValue.list xs => some (xs.map decodeStr)
  | _ => Option.none

def decodeDict : PyValue → List (String × PyValue)
  | PyValue.dict es => es
  | _ => []

def decodeStrDict : PyValue → List (String × String)
  | PyValue.dict es => es.map (fun e => (e.1, decodeStr e.2))
  | _ => []

def decodeStrList : PyValue → List String
  | PyValue.list xs => xs.map decodeStr
  | _ => []

/-- Encoding of an `Option (List String)` field (`include_globs`,
`exclude_globs`): Python stores the list object or `None` as is. -/
def encodeOptStrList : Option (List String) → PyValue
  | some xs => PyValue.list (xs.map PyValue.str)
  | Option.none => PyValue.none

/-- Embedding of an optional string field into the value universe. -/
def encodeOptStr : Option String → PyValue
  | some s => PyValue.str s
  | Option.none => PyValue.none

/-- Embedding of an optional integer field into the value universe. -/
def encodeOptInt : Option Int → PyValue
  | some n => PyValue.int n
  | Option.none => PyValue.none

/-- `self.mtime.isoformat() if self.mtime else None` (datetimes are always
truthy). -/
def encodeMtime : Option PyDatetime → PyValue
  | some d => PyValue.dtStr d
  | Option.none => PyValue.none

/-- `DataSourceSpec.to_dict` (models.py:46-54).  Note that `compute_hash`
is not among the serialized keys. -/
def DataSourceSpec.to_dict (s : DataSourceSpec) : PyValue :=
  PyValue.dict
    [ ("uri", PyValue.str s.uri),
      ("source_type", PyValue.str s.source_type),
      ("include_globs", encodeOptStrList s.include_globs),
      ("exclude_globs", encodeOptStrList s.exclude_globs),
      ("recursive", PyValue.bool s.recursive),
      ("hints", PyValue.dict s.hints) ]

/-- `DataSourceSpec.from_dict` (models.py:58-76).  `compute_hash` is not
read back, so it takes the dataclass default `True`. -/
def DataSourceSpec.from_dict (v : PyValue) : Except String DataSourceSpec :=
  match v with
  | PyValue.dict d =>
    if !pyHasKey d "uri" then Except.error "Missing required field: uri"
    else
      let sourceType := pyGetD d "source_type" (PyValue.str "filesystem")
      if !pyEqStr sourceType "filesystem" then
        Except.error "Invalid source_type"
      else
        Except.ok
          { uri := decodeStr (pyGetD d "uri" PyValue.none)
            source_type := decodeStr sourceType
            include_globs := decodeOptStrList (pyGetD d "include_globs" PyValue.none)
            exclude_globs := decodeOptStrList (pyGetD d "exclude_globs" PyValue.none)
            recursive := decodeBool (pyGetD d "recursive" (PyValue.bool true))
            hints := decodeDict (pyGetD d "hints" (PyValue.dict [])) }
  | _ => Except.error "Input must be a dictionary"

/-- `Artifact.to_dict` (models.py:115-127); `mtime.isoformat() if self.mtime
else None` (datetimes are always truthy in Python). -/
def Artifact.to_dict (a : Artifact) : PyValue :=
  PyValue.dict
    [ ("artifact_id", PyValue.str a.artifact_id),
      ("source_uri", PyValue.str a.source_uri),
      ("artifact_type", PyValue.str a.artifact_type),
      ("relative_path", encodeOptStr a.relative_path),
      ("absolute_path", encodeOptStr a.absolute_path),
      ("size_bytes", encodeOptInt a.size_bytes),
      ("mtime", encodeMtime a.mtime),
      ("content_hash", encodeOptStr a.content_hash),
      ("media_type", encodeOptStr a.media_type),
      ("tags", PyValue.dict (a.tags.map (fun e => (e.1, PyValue.str e.2)))) ]

/-- `Artifact.from_dict` (models.py:131-162): required-field checks, the
`artifact_type` membership check, `fromisoformat` on a truthy `mtime` value
and the timezone-awareness check. -/
def Artifact.from_dict (v : PyValue) : Except String Artifact :=
  match v with
  | PyValue.dict d =>
    if !pyHasKey d "artifact_id" then Except.error "Missing required field: artifact_id"
    else if !pyHasKey d "source_uri" then Except.error "Missing required field: source_uri"
    else if !pyHasKey d "artifact_type" then Except.error "Missing required field: artifact_type"
    else
      let artifactType := pyGetD d "artifact_type" PyValue.none
      if !(pyEqStr artifactType "file" || pyEqStr artifactType "db_table") then
        Except.error "Invalid artifact_type"
      else
        let mtimeIso := pyGetD d "mtime" PyValue.none
        (if pyTruthy mtimeIso then
            (fromisoformat mtimeIso).map some
          else Except.ok Option.none).bind (fun mtime =>
        if (mtime.map PyDatetime.tzAware) = some false then
          Except.error "mtime must be timezone-aware"
        else
          Except.ok
            { artifact_id := decodeStr (pyGetD d "artifact_id" PyValue.none)
              source_uri := decodeStr (pyGetD d "source_uri" PyValue.none)
              artifact_type := decodeStr artifactType
              relative_path := decodeOptStr (pyGetD d "relative_path" PyValue.none)
              absolute_path := decodeOptStr (pyGetD d "absolute_path" PyValue.none)
              size_bytes := decodeOptInt (pyGetD d "size_bytes" PyValue.none)
              mtime := mtime
              content_hash := decodeOptStr (pyGetD d "content_hash" PyValue.none)
              media_type := decodeOptStr (pyGetD d "media_type" PyValue.none)
              tags := decodeStrDict (pyGetD d "tags" (PyValue.dict [])) })
  | _ => Except.error "Input must be a dictionary"

/-- `Manifest.to_dict` (models.py:191-198). -/
def Manifest.to_dict (m : Manifest) : PyValue :=
  PyValue.dict
    [ ("manifest_id", PyValue.str m.manifest_id),
      ("source", m.source.to_dict),
      ("created_at", PyValue.dtStr m.created_at),
      ("artifacts", PyValue.list (m.artifacts.map Artifact.to_dict)),
      ("warnings", PyValue.list (m.warnings.map PyValue.str)) ]

/-- Iterating `d["artifacts"]` and calling `Artifact.from_dict` on each
element; iteration over a non-list raises. -/
def artifactsFromValue : PyValue → Except String (List Artifact)
  | PyValue.list xs => xs.mapM Artifact.from_dict
  | _ => Except.error "artifacts value is not iterable"

/-- `Manifest.from_dict` (models.py:202-227): required-field checks,
`fromisoformat` on `created_at` plus the timezone-awareness check, nested
source and artifact parsing, `warnings` defaulting to `[]`. -/
def Manifest.from_dict (v : PyValue) : Except String Manifest :=
  match v with
  | PyValue.dict d =>
    if !pyHasKey d "manifest_id" then Except.error "Missing required field: manifest_id"
    else if !pyHasKey d "source" then Except.error "Missing required field: source"
    else if !pyHasKey d "created_at" then Except.error "Missing required field: created_at"
    else if !pyHasKey d "artifacts" then Except.error "Missing required field: artifacts"
    else
      (DataSourceSpec.from_dict (pyGetD d "source" PyValue.none)).bind (fun source =>
      (fromisoformat (pyGetD d "created_at" PyValue.none)).bind (fun createdAt =>
      if createdAt.tzAware = false then
        Except.error "created_at must be timezone-aware"
      else
        (artifactsFromValue (pyGetD d "artifacts" PyValue.none)).bind (fun artifacts =>
        Except.ok
          { manifest_id := decodeStr (pyGetD d "manifest_id" PyValue.none)
            source := source
            created_at := createdAt
            artifacts := artifacts
            warnings := decodeStrList (pyGetD d "warnings" (PyValue.list [])) })))
  | _ => Except.error "Input must be a dictionary"

/-! ## Paths (`pathlib.PurePosixPath`)

A pure POSIX path is its anchor (absolute or not) plus its component list.
`PurePosixPath` normalization drops empty components and `"."` components;
`parts` of an absolute path additionally starts with the root `"/"`, which
`fullParts` reproduces. -/

structure PurePath where
  absolute : Bool
  parts : List String
deriving DecidableEq, Repr

/-- Split a character list on `/` (no normalization; pieces may be empty). -/
def splitSlash : List Char → List (List Char)
  | [] => [[]]
  | c :: rest =>
    if c = '/' then [] :: splitSlash rest
    else
      match splitSlash rest with
      | [] => [[c]]
      | g :: gs => (c :: g) :: gs

/-- `PurePosixPath(s)`: anchored iff the text starts with `/`; components
are the nonempty, non-`"."` slash-separated pieces. -/
def PurePath.ofString (s : String) : PurePath :=
  { absolute := decide (s.data.head? = some '/')
    parts := ((splitSlash s.data).map (fun l => String.mk l)).filter
      (fun c => decide (c ≠ "" ∧ c ≠ ".")) }

/-- Join components with `/`. -/
def joinParts : List String → List Char
  | [] => []
  | [p] => p.data
  | p :: rest => p.data ++ '/' :: joinParts rest

/-- `PurePosixPath.as_posix()` (equal to `str(p)` on POSIX): `"."` for the
empty relative path. -/
def PurePath.asPosix (p : PurePath) : String :=
  if p.absolute then String.mk ('/' :: joinParts p.parts)
  else if p.parts.isEmpty then "." else String.mk (joinParts p.parts)

/-- `PurePath.parts` as Python exposes it: the root `"/"` is itself the
first part of an absolute path. -/
def PurePath.fullParts (p : PurePath) : List String :=
  (if p.absolute then ["/"] else []) ++ p.parts

/-- `PurePath.name`: the final component, `""` if there is none. -/
def PurePath.name (p : PurePath) : String :=
  (p.parts.getLast?).getD ""

/-! ## `fnmatch.fnmatchcase` glob matching

`*` matches any character sequence (`/` is not special to `fnmatch`), `?`
any single character and `[...]`/`[!...]` a character set with ranges; an
unterminated `[` is a literal.  The matcher recurses structurally on a fuel
argument that the top-level wrapper sets high enough to be irrelevant, so
that it is kernel-executable. -/

/-- Membership of `c` in a class body: `a-b` is a range unless `-` is first
or last, mirroring `fnmatch.translate`. -/
def classMatches (c : Char) : List Char → Bool
  | a :: '-' :: b :: rest => (decide (a ≤ c) && decide (c ≤ b)) || classMatches c rest
  | a :: rest => decide (a = c) || classMatches c rest
  | [] => false

/-- Scan to the first `]`, returning the body before it and the remainder
after it. -/
def scanClose : List Char → Option (List Char × List Char)
  | [] => Option.none
  | c :: rest =>
    if c = ']' then some ([], rest)
    else (scanClose rest).map (fun pr => (c :: pr.1, pr.2))

/-- Parse a class after an opening `[`: an optional leading `!`, then a body
whose first character may be a literal `]`, up to the closing `]`.  Returns
`(negated, body, rest-of-pattern)`; `Option.none` if the class never
closes. -/
def parseClass (l : List Char) : Option (Bool × List Char × List Char) :=
  let negBody : Bool × List Char :=
    match l with
    | '!' :: t => (true, t)
    | _ => (false, l)
  let body := negBody.2
  let scanned : Option (List Char × List Char) :=
    match body with
    | ']' :: t => (scanClose t).map (fun pr => (']' :: pr.1, pr.2))
    | _ => scanClose body
  scanned.map (fun pr => (negBody.1, pr.1, pr.2))

/-- `anySuffix f s` is true when `f` accepts some suffix of `s` (including
`s` itself and `[]`): the semantics of a `*` wildcard. -/
def anySuffix (f : List Char → Bool) : List Char → Bool
  | [] => f []
  | c :: st => f (c :: st) || anySuffix f (st : List Char)

/-- Fuel-indexed glob matcher; one unit of fuel is spent whenever the
pattern shrinks, so any fuel above the pattern length is enough (the
wrapper `globMatch` supplies it). -/
def globMatchF : Nat → List Char → List Char → Bool
  | 0, _, _ => false
  | Nat.succ fuel, pat, s =>
    match pat with
    | [] => s.isEmpty
    | c :: pr =>
      if c = '*' then anySuffix (globMatchF fuel pr) s
      else if c = '?' then
        match s with
        | [] => false
        | _ :: st => globMatchF fuel pr st
      else if c = '[' then
        match parseClass pr with
        | some (neg, cls, rest) =>
          match s with
          | [] => false
          | d :: st => (neg != classMatches d cls) && globMatchF fuel rest st
        | Option.none =>
          match s with
          | d :: st => (d = '[' : Bool) && globMatchF fuel pr st
          | [] => false
      else
        match s with
        | [] => false
        | d :: st => (c = d : Bool) && globMatchF fuel pr st

/-- Glob match of pattern characters against subject characters. -/
def globMatch (pat s : List Char) : Bool :=
  globMatchF (pat.length + 1) pat s

/-- `fnmatch.fnmatchcase(name, pat)` (case-sensitive, `/` not special). -/
def fnmatchcase (name pat : String) : Bool :=
  globMatch pat.data name.data

/-! ## `PurePath.match` (collectors.py uses it for include/exclude globs)

CPython (3.11, POSIX flavour): parse the pattern as a path; raise
`ValueError` on an empty pattern; an anchored pattern must match the whole
part list, an unanchored pattern is matched right-to-left against the
trailing parts, each part with `fnmatch.fnmatchcase`. -/

/-- Right-to-left componentwise fnmatch of pattern parts against trailing
subject parts. -/
def matchParts (parts patParts : List String) : Bool :=
  (parts.reverse.zip patParts.reverse).all (fun pr => fnmatchcase pr.1 pr.2)

def pathMatch (p : PurePath) (pattern : String) : Except String Bool :=
  let pat := PurePath.ofString pattern
  if !pat.absolute && pat.parts.isEmpty then Except.error "empty pattern"
  else if pat.absolute then
    if !p.absolute then Except.ok false
    else if pat.parts.length ≠ p.parts.length then Except.ok false
    else Except.ok (matchParts p.parts pat.parts)
  else
    if pat.parts.length > p.fullParts.length then Except.ok false
    else Except.ok (matchParts p.fullParts pat.parts)

/-- One pattern test of `_matches_any`/`_excluded` (collectors.py:71/87):
`path.match(pat) or Path(s).match(pat)` with `s = path.as_posix()` - the
second disjunct re-parses the printed path, which yields the same path
again. -/
def matchBoth (p : PurePath) (pat : String) : Except String Bool :=
  (pathMatch p pat).bind (fun b1 =>
    if b1 then Except.ok true
    else pathMatch (PurePath.ofString p.asPosix) pat)

/-- The pattern loop shared by `_matches_any` and `_excluded`: first
successful `matchBoth` wins, otherwise `False`; a raised `ValueError`
propagates. -/
def matchesAnyGo (p : PurePath) : List String → Except String Bool
  | [] => Except.ok false
  | pat :: rest =>
    (matchBoth p pat).bind (fun b =>
      if b then Except.ok true else matchesAnyGo p rest)

/-- `_matches_any` (collectors.py:63-73): vacuously true for `None`/empty
pattern lists. -/
def matchesAny (p : PurePath) (patterns : Option (List String)) : Except String Bool :=
  match patterns with
  | Option.none => Except.ok true
  | some pats => if pats.isEmpty then Except.ok true else matchesAnyGo p pats

/-- `_excluded` (collectors.py:81-89): vacuously false for `None`/empty
pattern lists; the loop body is identical to `_matches_any`. -/
def excluded (p : PurePath) (patterns : Option (List String)) : Except String Bool :=
  match patterns with
  | Option.none => Except.ok false
  | some pats => if pats.isEmpty then Except.ok false else matchesAnyGo p pats

/-! ## Media-type inference (collectors.py:25-53) -/

def MEDIA_BY_EXT : List (String × String) :=
  [ (".csv", "text/csv"),
    (".tsv", "text/tab-separated-values"),
    (".json", "application/json"),
    (".jsonl", "application/x-ndjson"),
    (".parquet", "application/parquet"),
    (".feather", "application/vnd.apache.arrow.file"),
    (".arrow", "application/vnd.apache.arrow.file"),
    (".txt", "text/plain"),
    (".md", "text/markdown"),
    (".yaml", "application/x-yaml"),
    (".yml", "application/x-yaml"),
    (".sqlite", "application/x-sqlite3"),
    (".db", "application/x-sqlite3"),
    (".pkl", "application/octet-stream"),
    (".pickle", "application/octet-stream"),
    (".zip", "application/zip"),
    (".gz", "application/gzip"),
    (".tar", "application/x-tar") ]

/-- `PurePath.suffix`: the final `.`-suffix of `name`, empty when the dot is
absent, leading or trailing (`name[i:]` only when `0 < i < len(name)-1`). -/
def PurePath.suffix (p : PurePath) : String :=
  let cs := p.name.data
  if cs.contains '.' then
    let r := cs.reverse.takeWhile (fun c => c ≠ '.')
    if 0 < cs.length - 1 - r.length ∧ r ≠ [] then String.mk ('.' :: r.reverse)
    else ""
  else ""

/-- ASCII lowering of `str.lower()` (all table keys are ASCII). -/
def lowerStr (s : String) : String := s.map Char.toLower

/-- `_infer_media_type` (collectors.py:52-53). -/
def inferMediaType (p : PurePath) : Option String :=
  (MEDIA_BY_EXT.find? (fun e => e.1 = lowerStr p.suffix)).map (fun e => e.2)

/-! ## The filesystem oracle

`FilesystemCollector.collect` performs blocking filesystem calls; the
embedding passes their outcomes in explicitly.  `Except.error e` models the
call raising an exception whose `str` is `e`.  `uuids` is the stream of
`str(uuid4())` results in call order, indexed here by the number of
artifacts appended so far (each appended artifact consumes one identifier,
and the final manifest identifier consumes the next). -/

structure FileSystem where
  isFile : PurePath → Bool
  isDir : PurePath → Bool
  rglob : PurePath → Except String (List PurePath)
  glob : PurePath → Except String (List PurePath)
  inspectIsFile : PurePath → Except String Bool
  statOf : PurePath → Except String (Int × PyDatetime)
  hashOf : PurePath → Except String String
  resolve : PurePath → PurePath
  expanduser : PurePath → PurePath
  uuids : Nat → String
  now : PyDatetime

/-- `p.relative_to(base)`: drop `base`'s components when they prefix `p`'s
and the anchors agree, otherwise raise `ValueError`. -/
def relativeTo (p base : PurePath) : Except String PurePath :=
  if p.absolute = base.absolute && base.parts.isPrefixOf p.parts then
    Except.ok { absolute := false, parts := p.parts.drop base.parts.length }
  else Except.error "is not in the subpath"

/-- `try_add_file` (collectors.py:131-177), state-passing over the
`(artifacts, warnings)` accumulator.  A `ValueError` escaping from the glob
matchers is the only uncaught exception, and it occurs before any append,
so an `Except.error` result leaves the accumulator unchanged. -/
def tryAddFile (fs : FileSystem) (source : DataSourceSpec) (p : PurePath)
    (baseRoot : Option PurePath) (st : List Artifact × List String) :
    Except String (List Artifact × List String) :=
  (excluded p source.exclude_globs).bind (fun ex =>
  if ex then Except.ok st
  else
    (matchesAny p source.include_globs).bind (fun inc =>
    if !inc then Except.ok st
    else
      match fs.statOf p with
      | Except.error e =>
        let ps := p.asPosix
        Except.ok (st.1, st.2 ++ [s!"stat failed for {ps}: {e}"])
      | Except.ok sizeMtime =>
        let hashWarns : Option String × List String :=
          if source.compute_hash then
            match fs.hashOf p with
            | Except.ok h => (some h, st.2)
            | Except.error e =>
              let ps := p.asPosix
              (Option.none, st.2 ++ [s!"hash failed for {ps}: {e}"])
          else (Option.none, st.2)
        let absPath := (fs.resolve p).asPosix
        let relPath : Option String :=
          match baseRoot with
          | some root =>
            match relativeTo (fs.resolve p) (fs.resolve root) with
            | Except.ok r => some r.asPosix
            | Except.error _ => some p.name
          | Option.none => Option.none
        Except.ok
          (st.1 ++
            [{ source_uri := source.uri
               artifact_type := "file"
               relative_path := relPath
               absolute_path := some absPath
               size_bytes := some sizeMtime.1
               mtime := some sizeMtime.2
               content_hash := hashWarns.1
               media_type := inferMediaType p
               artifact_id := fs.uuids st.1.length
               tags := [] }],
           hashWarns.2)))

/-- `a.relative_path or ""`: Python `or` yields `""` for both `None` and
the empty string. -/
def pyOrEmpty : Option String → String
  | some s => if s.isEmpty then "" else s
  | Option.none => ""

/-- The sort key of collectors.py:206. -/
def relKey (a : Artifact) : String := pyOrEmpty a.relative_path

/-- Stable ascending insertion relative to a boolean `le`: a new element
goes after every existing element it is `le`-above-or-tied-with, which is
exactly how a stable ascending sort orders ties. -/
def insertLe {α : Type} (le : α → α → Bool) (x : α) : List α → List α
  | [] => [x]
  | y :: ys => if le y x then y :: insertLe le x ys else x :: y :: ys

/-- Stable ascending sort (`list.sort` is Timsort: stable, ascending by
key; any stable ascending sort computes the same list). -/
def stableSort {α : Type} (le : α → α → Bool) (l : List α) : List α :=
  l.foldl (fun acc x => insertLe le x acc) []

/-- The boolean comparison `key(a) <= key(b)` used by the artifact sort. -/
def artifactLe (a b : Artifact) : Bool := decide (relKey a ≤ relKey b)

/-- Building the returned manifest (collectors.py:206-214): sort the
accumulated artifacts by `relative_path or ""`, generate the manifest
identifier, stamp the current time. -/
def mkManifest (fs : FileSystem) (source : DataSourceSpec)
    (st : List Artifact × List String) : Manifest :=
  { manifest_id := fs.uuids st.1.length
    source := source
    created_at := fs.now
    artifacts := stableSort artifactLe st.1
    warnings := st.2 }

/-- One directory entry of the walk loop (collectors.py:195-201): the `try`
wraps both the `p.is_file()` probe and the `try_add_file` call, recording a
`failed to inspect path` warning for an exception from either. -/
def collectDirStep (fs : FileSystem) (source : DataSourceSpec) (root : PurePath)
    (st : List Artifact × List String) (p : PurePath) :
    List Artifact × List String :=
  match fs.inspectIsFile p with
  | Except.error e =>
    let ps := p.asPosix
    (st.1, st.2 ++ [s!"failed to inspect path {ps}: {e}"])
  | Except.ok false => st
  | Except.ok true =>
    match tryAddFile fs source p (some root) st with
    | Except.ok st2 => st2
    | Except.error e =>
      let ps := p.asPosix
      (st.1, st.2 ++ [s!"failed to inspect path {ps}: {e}"])

/-- `FilesystemCollector.collect` (collectors.py:123-214).  In the
single-file case `try_add_file` runs outside any `try`, so a `ValueError`
from an empty glob pattern propagates (hence the `Except` result); in the
directory case every per-entry exception is converted to a warning. -/
def FilesystemCollector.collect (fs : FileSystem) (source : DataSourceSpec) :
    Except String Manifest :=
  if source.source_type ≠ "filesystem" then
    let st := source.source_type
    Except.error s!"FilesystemCollector cannot handle source_type={st}"
  else
    let root := fs.expanduser (PurePath.ofString source.uri)
    if fs.isFile root then
      (tryAddFile fs source root Option.none ([], [])).bind (fun st =>
        Except.ok (mkManifest fs source st))
    else if fs.isDir root then
      let iterWarns : List PurePath × List String :=
        match (if source.recursive then fs.rglob root else fs.glob root) with
        | Except.ok l => (l, [])
        | Except.error e =>
          let rs := root.asPosix
          ([], [s!"failed to list directory {rs}: {e}"])
      Except.ok (mkManifest fs source
        (iterWarns.1.foldl (collectDirStep fs source root) ([], iterWarns.2)))
    else
      let rs := root.asPosix
      Except.ok (mkManifest fs source
        ([], [s!"source uri does not exist or is not accessible: {rs}"]))

/-! ## Orchestrator (`orchestrator.py`) -/

/-- The field list of the `FilesystemCollector` dataclass: it declares no
fields, so its generated `__init__` accepts no keyword arguments. -/
def filesystemCollectorFields : List String := []

/-- The keyword-argument check of a dataclass-generated `__init__`: any
keyword not naming a declared field raises `TypeError`. -/
def dataclassInitCheck (fieldNames kwargs : List String) : Except String Unit :=
  match kwargs.find? (fun k => !fieldNames.contains k) with
  | some k => Except.error s!"unexpected keyword argument {k}"
  | Option.none => Except.ok ()

/-- `collect_source` (orchestrator.py:15-22): for a filesystem source it
evaluates `FilesystemCollector(compute_hash=compute_hash)` - whose
constructor accepts no such keyword - before any collection could happen;
for any other `source_type` it raises `ValueError`. -/
def collect_source (fs : FileSystem) (source : DataSourceSpec)
    (computeHash : Bool := false) : Except String Manifest :=
  if source.source_type = "filesystem" then
    match dataclassInitCheck filesystemCollectorFields ["compute_hash"] with
    | Except.error e => Except.error e
    | Except.ok _ => FilesystemCollector.collect fs source
  else
    let st := source.source_type
    Except.error s!"No collector registered for source_type={st}"

/-! ## Manifest diff (the pure part of the `diff` command,
`interfaces/cli.py:276-300`) -/

/-- Insert into a Python dict modelled as an ordered assoc list: an
existing key keeps its position and gets the new value, a fresh key is
appended. -/
def dictInsert (d : List (String × Artifact)) (k : String) (v : Artifact) :
    List (String × Artifact) :=
  if d.any (fun e => e.1 = k) then
    d.map (fun e => if e.1 = k then (k, v) else e)
  else d ++ [(k, v)]

/-- `{a.relative_path: a for a in m.artifacts if a.relative_path is not
None}` (cli.py:276-277). -/
def indexByRelPath (arts : List Artifact) : List (String × Artifact) :=
  arts.foldl
    (fun d a =>
      match a.relative_path with
      | some p => dictInsert d p a
      | Option.none => d)
    []

def lookupDict (d : List (String × Artifact)) (k : String) : Option Artifact :=
  (d.find? (fun e => e.1 = k)).map (fun e => e.2)

/-- Truthiness of an optional string (`if art.content_hash`): `None` and
`""` are falsy. -/
def optStrTruthy : Option String → Bool
  | some s => !s.isEmpty
  | Option.none => false

/-- The per-pair comparison (cli.py:294-300): hash comparison when both
hashes are truthy, else the size/mtime fallback. -/
def isModifiedPair (a1 a2 : Artifact) : Bool :=
  if optStrTruthy a1.content_hash && optStrTruthy a2.content_hash then
    decide (a1.content_hash ≠ a2.content_hash)
  else
    decide (a1.size_bytes ≠ a2.size_bytes) || decide (a1.mtime ≠ a2.mtime)

structure DiffResult where
  added : List String
  removed : List String
  modified : List String
deriving DecidableEq, Repr

/-- String comparison used by `sorted` (lexicographic by code point). -/
def strLe (a b : String) : Bool := decide (a ≤ b)

/-- The diff algorithm (cli.py:276-300): index both manifests by relative
path, set-difference the key sets for `added`/`removed`, and walk the
sorted intersection applying `isModifiedPair`. -/
def diffManifests (m1 m2 : Manifest) : DiffResult :=
  let a1 := indexByRelPath m1.artifacts
  let a2 := indexByRelPath m2.artifacts
  let paths1 := a1.map (fun e => e.1)
  let paths2 := a2.map (fun e => e.1)
  { added := stableSort strLe (paths2.filter (fun p => !paths1.contains p))
    removed := stableSort strLe (paths1.filter (fun p => !paths2.contains p))
    modified :=
      (stableSort strLe (paths1.filter (fun p => paths2.contains p))).filter
        (fun p =>
          match lookupDict a1 p, lookupDict a2 p with
          | some x, some y => isModifiedPair x y
          | _, _ => false) }

/-! ## Generic lemmas about the stable sort -/

theorem insertLe_pos {α : Type} (le : α → α → Bool) (x y : α) (ys : List α)
    (h : le y x = true) : insertLe le x (y :: ys) = y :: insertLe le x ys := by
  simp [insertLe, h]

theorem insertLe_neg {α : Type} (le : α → α → Bool) (x y : α) (ys : List α)
    (h : ¬le y x = true) : insertLe le x (y :: ys) = x :: y :: ys := by
  simp [insertLe, h]

theorem mem_insertLe {α : Type} (le : α → α → Bool) (x y : α) (l : List α) :
    y ∈ insertLe le x l ↔ y = x ∨ y ∈ l := by
  induction l with
  | nil => simp [insertLe]
  | cons z zs ih =>
    by_cases h : le z x = true
    · rw [insertLe_pos le x z zs h]
      simp only [List.mem_cons, ih]
      tauto
    · rw [insertLe_neg le x z zs h]
      simp only [List.mem_cons]

theorem mem_stableSort {α : Type} (le : α → α → Bool) (l : List α) (y : α) :
    y ∈ stableSort le l ↔ y ∈ l := by
  suffices h : ∀ acc : List α,
      y ∈ List.foldl (fun acc x => insertLe le x acc) acc l ↔ y ∈ acc ∨ y ∈ l by
    simpa [stableSort] using h []
  induction l with
  | nil => intro acc; simp
  | cons z zs ih =>
    intro acc
    simp only [List.foldl_cons, ih, mem_insertLe, List.mem_cons]
    tauto

theorem pairwise_insertLe {α : Type} (le : α → α → Bool)
    (htrans : ∀ a b c, le a b = true → le b c = true → le a c = true)
    (htot : ∀ a b, le a b = false → le b a = true)
    (x : α) (l : List α) (h : l.Pairwise (fun a b => le a b = true)) :
    (insertLe le x l).Pairwise (fun a b => le a b = true) := by
  induction l with
  | nil => simp [insertLe]
  | cons y ys ih =>
    rcases h with _ | ⟨hy, hys⟩
    by_cases hle : le y x = true
    · rw [insertLe_pos le x y ys hle]
      refine List.Pairwise.cons ?_ (ih hys)
      intro z hz
      rcases (mem_insertLe le x z ys).mp hz with rfl | hz
      · exact hle
      · exact hy z hz
    · rw [insertLe_neg le x y ys hle]
      refine List.Pairwise.cons ?_ (List.Pairwise.cons hy hys)
      intro z hz
      rcases List.mem_cons.mp hz with rfl | hz
      · exact htot _ _ (Bool.eq_false_iff.mpr hle)
      · exact htrans _ _ _ (htot _ _ (Bool.eq_false_iff.mpr hle)) (hy z hz)

theorem pairwise_stableSort {α : Type} (le : α → α → Bool)
    (htrans : ∀ a b c, le a b = true → le b c = true → le a c = true)
    (htot : ∀ a b, le a b = false → le b a = true)
    (l : List α) : (stableSort le l).Pairwise (fun a b => le a b = true) := by
  suffices h : ∀ acc : List α, acc.Pairwise (fun a b => le a b = true) →
      (List.foldl (fun acc x => insertLe le x acc) acc l).Pairwise
        (fun a b => le a b = true) by
    exact h [] List.Pairwise.nil
  induction l with
  | nil => intro acc hacc; simpa using hacc
  | cons z zs ih =>
    intro acc hacc
    exact ih _ (pairwise_insertLe le htrans htot z acc hacc)

theorem strLe_trans (a b c : String) (h1 : strLe a b = true) (h2 : strLe b c = true) :
    strLe a c = true := by
  simp only [strLe, decide_eq_true_eq] at h1 h2 ⊢
  exact le_trans h1 h2

theorem strLe_total (a b : String) (h : strLe a b = false) : strLe b a = true := by
  simp only [strLe, decide_eq_false_iff_not, decide_eq_true_eq] at h ⊢
  exact le_of_not_le h

theorem artifactLe_trans (a b c : Artifact) (h1 : artifactLe a b = true)
    (h2 : artifactLe b c = true) : artifactLe a c = true := by
  simp only [artifactLe, decide_eq_true_eq] at h1 h2 ⊢
  exact le_trans h1 h2

theorem artifactLe_total (a b : Artifact) (h : artifactLe a b = false) :
    artifactLe b a = true := by
  simp only [artifactLe, decide_eq_false_iff_not, decide_eq_true_eq] at h ⊢
  exact le_of_not_le h

/-! ## Shared concrete instances for witnesses -/

/-- A filesystem oracle whose root exists neither as file nor directory and
whose per-file calls fail; used to instantiate hypotheses concretely. -/
def fsW : FileSystem :=
  { isFile := fun _ => false
    isDir := fun _ => false
    rglob := fun _ => Except.ok []
    glob := fun _ => Except.ok []
    inspectIsFile := fun _ => Except.ok false
    statOf := fun _ => Except.error "denied"
    hashOf := fun _ => Except.error "denied"
    resolve := id
    expanduser := id
    uuids := fun _ => "u"
    now := ⟨0, true⟩ }

def specW : DataSourceSpec := { uri := "data" }

/-- The resolved root path of a collection run (collectors.py:127). -/
def rootOf (fs : FileSystem) (source : DataSourceSpec) : PurePath :=
  fs.expanduser (PurePath.ofString source.uri)

/-- The warning emitted for a missing root (collectors.py:204). -/
def missingRootWarning (fs : FileSystem) (source : DataSourceSpec) : String :=
  let rs := (rootOf fs source).asPosix
  s!"source uri does not exist or is not accessible: {rs}"

/-! ## C2 -/

/-- Claim C2: for every DataSourceSpec - in particular for every spec with
source_type "filesystem" - the orchestrator entry point collect_source
raises and never returns a Manifest: the filesystem branch evaluates
`FilesystemCollector(compute_hash=...)`, but the field-less dataclass
constructor rejects the keyword, and every other source_type hits the
`No collector registered` ValueError. -/
theorem C2_collect_source_always_raises (fs : FileSystem) (source : DataSourceSpec)
    (ch : Bool) : ∃ e, collect_source fs source ch = Except.error e := by
  by_cases h : source.source_type = "filesystem"
  · exact ⟨_, by simp only [collect_source, if_pos h]; rfl⟩
  · exact ⟨_, by simp only [collect_source, if_neg h]; rfl⟩

/-! ## C9 -/

theorem isModifiedPair_self (a : Artifact) : isModifiedPair a a = false := by
  by_cases h : (optStrTruthy a.content_hash && optStrTruthy a.content_hash) = true
  · simp [isModifiedPair, h]
  · simp [isModifiedPair, h]

/-- Claim C9: diffing a manifest against itself yields empty added, removed
and modified lists. -/
theorem C9_diff_self (m : Manifest) : diffManifests m m = ⟨[], [], []⟩ := by
  have hdiff : ∀ l : List String, l.filter (fun p => !l.contains p) = [] := by
    intro l
    refine List.filter_eq_nil.mpr ?_
    intro p hp
    simpa using hp
  have hmod : ∀ d : List (String × Artifact), ∀ l : List String,
      l.filter (fun p =>
        match lookupDict d p, lookupDict d p with
        | some x, some y => isModifiedPair x y
        | _, _ => false) = [] := by
    intro d l
    refine List.filter_eq_nil.mpr ?_
    intro p _
    cases h : lookupDict d p with
    | none => simp
    | some x => simp [isModifiedPair_self]
  simp only [diffManifests, hdiff, hmod]
  rfl

/-! ## C7 -/

/-- Claim C7: when the resolved root is neither an existing file nor a
directory, `FilesystemCollector.collect` does not fail: it returns a
manifest with an empty artifact list and the missing-root warning
recorded. -/
theorem C7_missing_root (fs : FileSystem) (source : DataSourceSpec)
    (h0 : source.source_type = "filesystem")
    (h1 : fs.isFile (rootOf fs source) = false)
    (h2 : fs.isDir (rootOf fs source) = false) :
    FilesystemCollector.collect fs source = Except.ok
      { manifest_id := fs.uuids 0
        source := source
        created_at := fs.now
        artifacts := []
        warnings := [missingRootWarning fs source] } := by
  have hne : ¬source.source_type ≠ "filesystem" := by simp [h0]
  simp only [FilesystemCollector.collect, if_neg hne]
  rw [show fs.expanduser (PurePath.ofString source.uri) = rootOf fs source from rfl]
  rw [h1, h2]
  simp [mkManifest, stableSort, missingRootWarning]

/-- Witness for C7 at the concrete oracle `fsW` and spec `specW`. -/
theorem C7_witness :
    FilesystemCollector.collect fsW specW = Except.ok
      { manifest_id := fsW.uuids 0
        source := specW
        created_at := fsW.now
        artifacts := []
        warnings := [missingRootWarning fsW specW] } :=
  C7_missing_root fsW specW rfl rfl rfl

/-! ## C10 -/

theorem mkManifest_sorted (fs : FileSystem) (source : DataSourceSpec)
    (st : List Artifact × List String) :
    List.Sorted (fun a b => relKey a ≤ relKey b) (mkManifest fs source st).artifacts := by
  have h := pairwise_stableSort artifactLe artifactLe_trans artifactLe_total st.1
  exact h.imp (fun hab => by simpa [artifactLe] using hab)

/-- Claim C10: every manifest returned by `FilesystemCollector.collect` has
its artifact list sorted ascending by `relative_path`, an absent relative
path being treated as the empty string (which sorts first). -/
theorem C10_collect_sorted (fs : FileSystem) (source : DataSourceSpec) (m : Manifest)
    (h : FilesystemCollector.collect fs source = Except.ok m) :
    List.Sorted (fun a b => relKey a ≤ relKey b) m.artifacts := by
  by_cases hs : source.source_type ≠ "filesystem"
  · simp only [FilesystemCollector.collect, if_pos hs] at h
    exact Except.noConfusion h
  · simp only [FilesystemCollector.collect, if_neg hs] at h
    by_cases hf : fs.isFile (fs.expanduser (PurePath.ofString source.uri)) = true
    · rw [if_pos hf] at h
      cases htry : tryAddFile fs source (fs.expanduser (PurePath.ofString source.uri))
          Option.none ([], []) with
      | error e => rw [htry] at h; cases h
      | ok st =>
        rw [htry] at h
        simp only [Except.bind, Except.ok.injEq] at h
        subst h
        exact mkManifest_sorted fs source st
    · rw [if_neg hf] at h
      by_cases hd : fs.isDir (fs.expanduser (PurePath.ofString source.uri)) = true
      · rw [if_pos hd] at h
        simp only [Except.ok.injEq] at h
        subst h
        exact mkManifest_sorted fs source _
      · rw [if_neg hd] at h
        simp only [Except.ok.injEq] at h
        subst h
        exact mkManifest_sorted fs source _

/-- Witness for C10: the collection over `fsW` succeeds and its artifact
list is sorted. -/
theorem C10_witness :
    List.Sorted (fun a b => relKey a ≤ relKey b)
      (Manifest.artifacts
        { manifest_id := "u"
          source := specW
          created_at := ⟨0, true⟩
          artifacts := []
          warnings := [missingRootWarning fsW specW] }) :=
  C10_collect_sorted fsW specW _ rfl

/-! ## C4 -/

/-- The diff-side accumulator step of `indexByRelPath`. -/
def indexStep (d : List (String × Artifact)) (a : Artifact) : List (String × Artifact) :=
  match a.relative_path with
  | some p => dictInsert d p a
  | Option.none => d

theorem indexByRelPath_eq_foldl (arts : List Artifact) :
    indexByRelPath arts = arts.foldl indexStep [] := rfl

theorem foldl_indexStep_filter (arts : List Artifact) :
    ∀ d, (arts.filter (fun a => a.relative_path.isSome)).foldl indexStep d =
      arts.foldl indexStep d := by
  induction arts with
  | nil => intro d; rfl
  | cons a rest ih =>
    intro d
    cases h : a.relative_path with
    | none =>
      simp only [List.filter_cons, h, Option.isSome_none, Bool.false_eq_true, if_false,
        List.foldl_cons, ih, indexStep]
    | some p =>
      simp only [List.filter_cons, h, Option.isSome_some, if_true, List.foldl_cons,
        ih, indexStep]

/-- Dropping the artifacts without a relative path. -/
def stripNoRel (m : Manifest) : Manifest :=
  { m with artifacts := m.artifacts.filter (fun a => a.relative_path.isSome) }

theorem indexByRelPath_strip (arts : List Artifact) :
    indexByRelPath (arts.filter (fun a => a.relative_path.isSome)) =
      indexByRelPath arts := by
  rw [indexByRelPath_eq_foldl, indexByRelPath_eq_foldl, foldl_indexStep_filter]

/-- Claim C4: artifacts whose relative path is absent are dropped from the
diff entirely - removing them changes nothing, and two manifests consisting
only of such artifacts (e.g. two snapshots of the same single-file source)
diff to empty lists in every bucket. -/
theorem C4_absent_relative_path_dropped :
    (∀ m1 m2 : Manifest,
      diffManifests (stripNoRel m1) (stripNoRel m2) = diffManifests m1 m2)
    ∧ (∀ m1 m2 : Manifest,
        (∀ a ∈ m1.artifacts, a.relative_path = Option.none) →
        (∀ a ∈ m2.artifacts, a.relative_path = Option.none) →
        diffManifests m1 m2 = ⟨[], [], []⟩) := by
  constructor
  · intro m1 m2
    simp only [diffManifests, stripNoRel, indexByRelPath_strip]
  · intro m1 m2 h1 h2
    have e1 : indexByRelPath m1.artifacts = [] := by
      rw [← indexByRelPath_strip]
      have : m1.artifacts.filter (fun a => a.relative_path.isSome) = [] := by
        refine List.filter_eq_nil.mpr ?_
        intro a ha
        simp [h1 a ha]
      rw [this]
      rfl
    have e2 : indexByRelPath m2.artifacts = [] := by
      rw [← indexByRelPath_strip]
      have : m2.artifacts.filter (fun a => a.relative_path.isSome) = [] := by
        refine List.filter_eq_nil.mpr ?_
        intro a ha
        simp [h2 a ha]
      rw [this]
      rfl
    simp only [diffManifests, e1, e2]
    rfl

/-- A concrete artifact builder for witnesses and counterexamples. -/
def mkArt (rp : Option String) (h : Option String) (sz : Int) (mt : Int)
    (aid : String) : Artifact :=
  { source_uri := "data"
    artifact_type := "file"
    relative_path := rp
    absolute_path := some "/data"
    size_bytes := some sz
    mtime := some ⟨mt, true⟩
    content_hash := h
    media_type := Option.none
    artifact_id := aid
    tags := [] }

/-- A concrete manifest builder for witnesses and counterexamples. -/
def mkMan (mid : String) (arts : List Artifact) : Manifest :=
  { manifest_id := mid
    source := specW
    created_at := ⟨0, true⟩
    artifacts := arts
    warnings := [] }

/-- Witness for C4's second conjunct: two single-artifact manifests whose
only artifacts lack a relative path diff to empty buckets. -/
theorem C4_witness :
    diffManifests
      (mkMan "m1" [mkArt Option.none (some "h1") 1 0 "a1"])
      (mkMan "m2" [mkArt Option.none (some "h2") 2 1 "a2"]) = ⟨[], [], []⟩ :=
  C4_absent_relative_path_dropped.2 _ _
    (by intro a ha; simp [mkMan] at ha; simp [ha, mkArt])
    (by intro a ha; simp [mkMan] at ha; simp [ha, mkArt])

/-! ## C8 -/

theorem mem_keys_dictInsert (d : List (String × Artifact)) (k : String) (v : Artifact)
    (q : String) :
    q ∈ (dictInsert d k v).map (fun e => e.1) ↔ q ∈ d.map (fun e => e.1) ∨ q = k := by
  unfold dictInsert
  by_cases h : d.any (fun e => e.1 = k) = true
  · rw [if_pos h]
    have hkeys : (d.map (fun e => if e.1 = k then (k, v) else e)).map (fun e => e.1) =
        d.map (fun e => e.1) := by
      rw [List.map_map]
      refine List.map_congr_left ?_
      intro e _
      by_cases he : e.1 = k
      · simp [he]
      · simp [he]
    rw [hkeys]
    have hk : k ∈ d.map (fun e => e.1) := by
      rcases List.any_eq_true.mp h with ⟨e, he, heq⟩
      simp only [decide_eq_true_eq] at heq
      exact List.mem_map.mpr ⟨e, he, heq⟩
    constructor
    · exact fun hq => Or.inl hq
    · rintro (hq | rfl)
      · exact hq
      · exact hk
  · rw [if_neg h]
    simp [List.mem_append]

theorem mem_keys_foldl_indexStep (arts : List Artifact) :
    ∀ (d : List (String × Artifact)) (q : String),
      q ∈ (arts.foldl indexStep d).map (fun e => e.1) ↔
        q ∈ d.map (fun e => e.1) ∨ ∃ a ∈ arts, a.relative_path = some q := by
  induction arts with
  | nil => intro d q; simp
  | cons a rest ih =>
    intro d q
    rw [List.foldl_cons]
    cases h : a.relative_path with
    | none =>
      rw [show indexStep d a = d by simp [indexStep, h]]
      rw [ih d q]
      simp only [List.mem_cons]
      constructor
      · rintro (hq | ⟨b, hb, hbq⟩)
        · exact Or.inl hq
        · exact Or.inr ⟨b, Or.inr hb, hbq⟩
      · rintro (hq | ⟨b, rfl | hb, hbq⟩)
        · exact Or.inl hq
        · rw [h] at hbq; cases hbq
        · exact Or.inr ⟨b, hb, hbq⟩
    | some p =>
      rw [show indexStep d a = dictInsert d p a by simp [indexStep, h]]
      rw [ih _ q, mem_keys_dictInsert]
      simp only [List.mem_cons]
      constructor
      · rintro (⟨hq | rfl⟩ | ⟨b, hb, hbq⟩)
        · exact Or.inl hq
        · exact Or.inr ⟨a, Or.inl rfl, h⟩
        · exact Or.inr ⟨b, Or.inr hb, hbq⟩
      · rintro (hq | ⟨b, rfl | hb, hbq⟩)
        · exact Or.inl (Or.inl hq)
        · rw [h] at hbq
          exact Or.inl (Or.inr (Option.some.inj hbq).symm)
        · exact Or.inr ⟨b, hb, hbq⟩

/-- A path is a key of the diff's index exactly when some artifact carries
it as its relative path. -/
theorem mem_keys_indexByRelPath (arts : List Artifact) (q : String) :
    q ∈ (indexByRelPath arts).map (fun e => e.1) ↔
      ∃ a ∈ arts, a.relative_path = some q := by
  rw [indexByRelPath_eq_foldl, mem_keys_foldl_indexStep]
  simp

theorem sorted_stableSort_strings (l : List String) :
    List.Sorted (fun a b : String => a ≤ b) (stableSort strLe l) := by
  have h := pairwise_stableSort strLe strLe_trans strLe_total l
  exact h.imp (fun hab => by simpa [strLe] using hab)

theorem not_contains_iff (l : List String) (p : String) :
    ((!l.contains p) = true) ↔ p ∉ l := by
  simp

theorem mem_added_iff (m1 m2 : Manifest) (p : String) :
    p ∈ (diffManifests m1 m2).added ↔
      ((∃ a ∈ m2.artifacts, a.relative_path = some p) ∧
        ¬∃ a ∈ m1.artifacts, a.relative_path = some p) := by
  simp only [diffManifests]
  rw [mem_stableSort, List.mem_filter, not_contains_iff, mem_keys_indexByRelPath,
    mem_keys_indexByRelPath]

theorem mem_removed_iff (m1 m2 : Manifest) (p : String) :
    p ∈ (diffManifests m1 m2).removed ↔
      ((∃ a ∈ m1.artifacts, a.relative_path = some p) ∧
        ¬∃ a ∈ m2.artifacts, a.relative_path = some p) := by
  simp only [diffManifests]
  rw [mem_stableSort, List.mem_filter, not_contains_iff, mem_keys_indexByRelPath,
    mem_keys_indexByRelPath]

/-- Claim C8: `added` consists exactly of the paths indexed in the second
manifest but not the first, `removed` of those indexed in the first but not
the second, and both lists are sorted lexicographically. -/
theorem C8_added_removed (m1 m2 : Manifest) :
    (∀ p, p ∈ (diffManifests m1 m2).added ↔
      ((∃ a ∈ m2.artifacts, a.relative_path = some p) ∧
        ¬∃ a ∈ m1.artifacts, a.relative_path = some p))
    ∧ (∀ p, p ∈ (diffManifests m1 m2).removed ↔
      ((∃ a ∈ m1.artifacts, a.relative_path = some p) ∧
        ¬∃ a ∈ m2.artifacts, a.relative_path = some p))
    ∧ List.Sorted (fun a b : String => a ≤ b) (diffManifests m1 m2).added
    ∧ List.Sorted (fun a b : String => a ≤ b) (diffManifests m1 m2).removed :=
  ⟨mem_added_iff m1 m2, mem_removed_iff m1 m2,
    sorted_stableSort_strings _, sorted_stableSort_strings _⟩

/-! ## C6 -/

/-- The warning recorded when the metadata query fails (collectors.py:143). -/
def statFailWarning (p : PurePath) (e : String) : String :=
  let ps := p.asPosix
  s!"stat failed for {ps}: {e}"

/-- The warning recorded when the content-hash read fails
(collectors.py:151). -/
def hashFailWarning (p : PurePath) (e : String) : String :=
  let ps := p.asPosix
  s!"hash failed for {ps}: {e}"

/-- The artifact `try_add_file` appends when the hash read failed: all
metadata present, `content_hash` absent. -/
def artifactNoHash (fs : FileSystem) (source : DataSourceSpec) (p : PurePath)
    (baseRoot : Option PurePath) (st : List Artifact × List String)
    (sz : Int) (mt : PyDatetime) : Artifact :=
  { source_uri := source.uri
    artifact_type := "file"
    relative_path :=
      match baseRoot with
      | some root =>
        match relativeTo (fs.resolve p) (fs.resolve root) with
        | Except.ok r => some r.asPosix
        | Except.error _ => some p.name
      | Option.none => Option.none
    absolute_path := some (fs.resolve p).asPosix
    size_bytes := some sz
    mtime := some mt
    content_hash := Option.none
    media_type := inferMediaType p
    artifact_id := fs.uuids st.1.length
    tags := [] }

/-- Claim C6: for a file that passes the filter, a failing metadata query
records a warning and skips the file with no partial record, while a
successful metadata query followed by a failing hash read (with
`compute_hash` true) records a warning but still appends the artifact with
`content_hash` absent. -/
theorem C6_stat_and_hash_failures (fs : FileSystem) (source : DataSourceSpec)
    (p : PurePath) (baseRoot : Option PurePath) (st : List Artifact × List String)
    (hex : excluded p source.exclude_globs = Except.ok false)
    (hinc : matchesAny p source.include_globs = Except.ok true) :
    (∀ e, fs.statOf p = Except.error e →
      tryAddFile fs source p baseRoot st =
        Except.ok (st.1, st.2 ++ [statFailWarning p e]))
    ∧ (∀ sz mt e, fs.statOf p = Except.ok (sz, mt) → source.compute_hash = true →
        fs.hashOf p = Except.error e →
        tryAddFile fs source p baseRoot st =
          Except.ok (st.1 ++ [artifactNoHash fs source p baseRoot st sz mt],
            st.2 ++ [hashFailWarning p e])) := by
  constructor
  · intro e hstat
    simp only [tryAddFile, hex, hinc, Except.bind, hstat]
    rfl
  · intro sz mt e hstat hch hhash
    simp only [tryAddFile, hex, hinc, Except.bind, hstat, hch, hhash]
    rfl

/-- Witness for C6's stat-failure conjunct at the concrete oracle `fsW`
(whose `statOf` raises `denied`) and the glob-free spec `specW`. -/
theorem C6_witness :
    tryAddFile fsW specW (PurePath.ofString "data") Option.none ([], []) =
      Except.ok ([], [statFailWarning (PurePath.ofString "data") "denied"]) :=
  (C6_stat_and_hash_failures fsW specW (PurePath.ofString "data") Option.none
    ([], []) rfl rfl).1 "denied" rfl

/-! ## C3 -/

/-- A lookup hit means the path is one of the index's keys. -/
theorem lookup_some_mem_keys (d : List (String × Artifact)) (p : String) (a : Artifact)
    (h : lookupDict d p = some a) : p ∈ d.map (fun e => e.1) := by
  unfold lookupDict at h
  rcases Option.map_eq_some'.mp h with ⟨e, he, hea⟩
  have hmem := List.mem_of_find?_eq_some he
  have hpred := List.find?_some he
  simp only [decide_eq_true_eq] at hpred
  exact List.mem_map.mpr ⟨e, hmem, hpred⟩

/-- The truthiness of an artifact's hash, at the `Prop` level: present and
nonempty. -/
def hashTruthy (a : Artifact) : Prop :=
  ∃ h, a.content_hash = some h ∧ h ≠ ""

theorem hashTruthy_iff (a : Artifact) :
    optStrTruthy a.content_hash = true ↔ hashTruthy a := by
  cases h : a.content_hash with
  | none => simp [optStrTruthy, hashTruthy, h]
  | some s =>
    simp only [optStrTruthy, hashTruthy, h, Bool.not_eq_true', Option.some.injEq]
    constructor
    · intro hs
      refine ⟨s, rfl, ?_⟩
      intro hseq
      rw [show s.isEmpty = true by rw [hseq]; rfl] at hs
      exact (Bool.eq_not_self true).mp hs
    · rintro ⟨t, rfl, ht⟩
      exact Bool.eq_false_iff.mpr (fun hem => ht ((String.isEmpty_iff s).mp hem))

/-- Membership of a common path in `modified` is decided by
`isModifiedPair` on the two indexed artifacts. -/
theorem mem_modified_iff (m1 m2 : Manifest) (p : String) (a1 a2 : Artifact)
    (h1 : lookupDict (indexByRelPath m1.artifacts) p = some a1)
    (h2 : lookupDict (indexByRelPath m2.artifacts) p = some a2) :
    (p ∈ (diffManifests m1 m2).modified ↔ isModifiedPair a1 a2 = true) := by
  have hk1 := lookup_some_mem_keys _ _ _ h1
  have hk2 := lookup_some_mem_keys _ _ _ h2
  simp only [diffManifests]
  rw [List.mem_filter, mem_stableSort, List.mem_filter]
  constructor
  · rintro ⟨_, hpred⟩
    rw [h1, h2] at hpred
    exact hpred
  · intro hpred
    refine ⟨⟨hk1, List.elem_eq_true_of_mem hk2⟩, ?_⟩
    rw [h1, h2]
    exact hpred

/-- Claim C3 (amended): for a path indexed in both manifests, when both
artifacts carry a truthy (present and nonempty) content hash the path is
modified iff the hashes differ; otherwise it is modified iff the sizes or
mtimes differ; and a common path never appears in `added` or `removed` (in
particular an unmodified path appears in no list). -/
theorem C3_modified_rule (m1 m2 : Manifest) (p : String) (a1 a2 : Artifact)
    (h1 : lookupDict (indexByRelPath m1.artifacts) p = some a1)
    (h2 : lookupDict (indexByRelPath m2.artifacts) p = some a2) :
    ((hashTruthy a1 ∧ hashTruthy a2) →
      (p ∈ (diffManifests m1 m2).modified ↔ a1.content_hash ≠ a2.content_hash))
    ∧ (¬(hashTruthy a1 ∧ hashTruthy a2) →
      (p ∈ (diffManifests m1 m2).modified ↔
        (a1.size_bytes ≠ a2.size_bytes ∨ a1.mtime ≠ a2.mtime)))
    ∧ p ∉ (diffManifests m1 m2).added
    ∧ p ∉ (diffManifests m1 m2).removed := by
  have hk1 := lookup_some_mem_keys _ _ _ h1
  have hk2 := lookup_some_mem_keys _ _ _ h2
  have he1 := (mem_keys_indexByRelPath m1.artifacts p).mp hk1
  have he2 := (mem_keys_indexByRelPath m2.artifacts p).mp hk2
  have hmod := mem_modified_iff m1 m2 p a1 a2 h1 h2
  refine ⟨?_, ?_, ?_, ?_⟩
  · rintro ⟨t1, t2⟩
    rw [hmod]
    rw [isModifiedPair, if_pos (by
      rw [Bool.and_eq_true, hashTruthy_iff, hashTruthy_iff]; exact ⟨t1, t2⟩)]
    simp
  · intro ht
    rw [hmod]
    rw [isModifiedPair, if_neg (by
      rw [Bool.and_eq_true, hashTruthy_iff, hashTruthy_iff]; exact ht)]
    simp
  · intro hc
    exact ((mem_added_iff m1 m2 p).mp hc).2 he1
  · intro hc
    exact ((mem_removed_iff m1 m2 p).mp hc).2 he2

/-- Witness for C3 at two concrete single-artifact manifests sharing path
`p` with differing truthy hashes. -/
theorem C3_witness :
    "p" ∈ (diffManifests (mkMan "ma" [mkArt (some "p") (some "h1") 1 0 "a1"])
      (mkMan "mb" [mkArt (some "p") (some "h2") 1 0 "a2"])).modified ↔
      (mkArt (some "p") (some "h1") 1 0 "a1").content_hash ≠
        (mkArt (some "p") (some "h2") 1 0 "a2").content_hash :=
  (C3_modified_rule (mkMan "ma" [mkArt (some "p") (some "h1") 1 0 "a1"])
    (mkMan "mb" [mkArt (some "p") (some "h2") 1 0 "a2"]) "p"
    (mkArt (some "p") (some "h1") 1 0 "a1")
    (mkArt (some "p") (some "h2") 1 0 "a2") rfl rfl).1
    ⟨⟨"h1", rfl, by decide⟩, ⟨"h2", rfl, by decide⟩⟩

/-- Counterexample to C3 as stated: with both hashes non-absent (`isSome`)
and different, but one of them the empty string, the code's truthiness test
falls through to the metadata comparison and reports the path unmodified;
the stated hash-preferred rule would report it modified. -/
theorem C3_counterexample :
    (mkArt (some "p") (some "") 1 0 "a1").content_hash.isSome = true
    ∧ (mkArt (some "p") (some "h") 1 0 "a2").content_hash.isSome = true
    ∧ (mkArt (some "p") (some "") 1 0 "a1").content_hash ≠
        (mkArt (some "p") (some "h") 1 0 "a2").content_hash
    ∧ lookupDict (indexByRelPath
        (mkMan "ma" [mkArt (some "p") (some "") 1 0 "a1"]).artifacts) "p" =
        some (mkArt (some "p") (some "") 1 0 "a1")
    ∧ lookupDict (indexByRelPath
        (mkMan "mb" [mkArt (some "p") (some "h") 1 0 "a2"]).artifacts) "p" =
        some (mkArt (some "p") (some "h") 1 0 "a2")
    ∧ "p" ∉ (diffManifests (mkMan "ma" [mkArt (some "p") (some "") 1 0 "a1"])
        (mkMan "mb" [mkArt (some "p") (some "h") 1 0 "a2"])).modified := by
  decide

/-! ## C1 -/

theorem decodeOptStrList_encode (o : Option (List String)) :
    decodeOptStrList (encodeOptStrList o) = o := by
  cases o with
  | none => rfl
  | some xs =>
    simp only [encodeOptStrList, decodeOptStrList, List.map_map, Option.some.injEq]
    refine List.map_congr_left ?_ |>.trans (List.map_id xs)
    intro e _
    rfl

theorem decodeStrDict_encode (tags : List (String × String)) :
    decodeStrDict (PyValue.dict (tags.map (fun e => (e.1, PyValue.str e.2)))) = tags := by
  simp only [decodeStrDict, List.map_map]
  refine List.map_congr_left ?_ |>.trans (List.map_id tags)
  intro e _
  rfl

theorem decodeStrList_encode (l : List String) :
    decodeStrList (PyValue.list (l.map PyValue.str)) = l := by
  simp only [decodeStrList, List.map_map]
  refine List.map_congr_left ?_ |>.trans (List.map_id l)
  intro e _
  rfl

theorem decodeOptStr_encode (o : Option String) :
    decodeOptStr (encodeOptStr o) = o := by
  cases o <;> rfl

theorem decodeOptInt_encode (o : Option Int) :
    decodeOptInt (encodeOptInt o) = o := by
  cases o <;> rfl

/-- `DataSourceSpec` round trip: every serialized field is restored, and
`compute_hash` - absent from the serialization - resets to the dataclass
default `True`. -/
theorem spec_roundtrip (s : DataSourceSpec) (h : s.source_type = "filesystem") :
    DataSourceSpec.from_dict s.to_dict = Except.ok { s with compute_hash := true } := by
  obtain ⟨uri, st, ig, eg, ch, rec, hints⟩ := s
  simp only at h
  subst h
  simp [DataSourceSpec.from_dict, DataSourceSpec.to_dict, pyHasKey, pyGet, pyGetD,
    pyEqStr, decodeStr, decodeBool, decodeDict, decodeOptStrList_encode, List.find?]

/-- `Artifact` round trip: every field is serialized and restored, for the
runtime-valid artifact types and timezone-aware mtimes. -/
theorem artifact_roundtrip (a : Artifact)
    (htype : a.artifact_type = "file" ∨ a.artifact_type = "db_table")
    (hmt : ∀ d, a.mtime = some d → d.tzAware = true) :
    Artifact.from_dict a.to_dict = Except.ok a := by
  obtain ⟨su, at_, rp, ap, sb, mt, chash, mty, aid, tags⟩ := a
  simp only at htype hmt
  cases mt with
  | none =>
    simp [Artifact.from_dict, Artifact.to_dict, pyHasKey, pyGet, pyGetD, pyEqStr,
      decodeStr, pyTruthy, fromisoformat, encodeMtime, Except.bind, Except.map,
      decodeOptStrList_encode, decodeOptStr_encode, decodeOptInt_encode,
      decodeStrDict_encode]
    try tauto
  | some d =>
    have hd : d.tzAware = true := hmt d rfl
    simp [Artifact.from_dict, Artifact.to_dict, pyHasKey, pyGet, pyGetD, pyEqStr,
      decodeStr, pyTruthy, fromisoformat, encodeMtime, Except.bind, Except.map,
      decodeOptStrList_encode, decodeOptStr_encode, decodeOptInt_encode,
      decodeStrDict_encode, hd]
    try tauto

theorem artifacts_roundtrip (arts : List Artifact)
    (h : ∀ a ∈ arts, (a.artifact_type = "file" ∨ a.artifact_type = "db_table") ∧
      ∀ d, a.mtime = some d → d.tzAware = true) :
    artifactsFromValue (PyValue.list (arts.map Artifact.to_dict)) = Except.ok arts := by
  induction arts with
  | nil => rfl
  | cons a rest ih =>
    have ha := h a (List.mem_cons_self a rest)
    have hrest : artifactsFromValue (PyValue.list (rest.map Artifact.to_dict)) =
        Except.ok rest :=
      ih (fun b hb => h b (List.mem_cons_of_mem a hb))
    simp only [artifactsFromValue] at hrest ⊢
    rw [List.map_cons, List.mapM_cons, artifact_roundtrip a ha.1 ha.2, hrest]
    rfl

/-- The manifest a round trip reproduces: everything preserved except
`source.compute_hash`, which resets to the default `true`. -/
def sourceDefaultHash (m : Manifest) : Manifest :=
  { m with source := { m.source with compute_hash := true } }

/-- Claim C1 (amended): serializing a Manifest with `to_dict` and parsing
it back with `from_dict` preserves every field - identifiers included -
except `source.compute_hash`, which is not serialized and comes back as
the dataclass default `true`.  The hypotheses are the runtime invariants of
the data model: a valid `source_type`, timezone-aware timestamps and valid
artifact types. -/
theorem C1_round_trip (m : Manifest)
    (hsrc : m.source.source_type = "filesystem")
    (hca : m.created_at.tzAware = true)
    (hart : ∀ a ∈ m.artifacts, (a.artifact_type = "file" ∨ a.artifact_type = "db_table") ∧
      ∀ d, a.mtime = some d → d.tzAware = true) :
    Manifest.from_dict (Manifest.to_dict m) = Except.ok (sourceDefaultHash m) := by
  obtain ⟨mid, src, ca, arts, warns⟩ := m
  simp only at hsrc hca hart
  simp [Manifest.from_dict, Manifest.to_dict, pyHasKey, pyGet, pyGetD, decodeStr,
    fromisoformat, Except.bind, spec_roundtrip src hsrc, artifacts_roundtrip arts hart,
    decodeStrList_encode, hca, sourceDefaultHash]

/-- Witness for C1 at a concrete manifest (with the default
`compute_hash = true`, the round trip is the identity). -/
theorem C1_witness :
    Manifest.from_dict (Manifest.to_dict (Manifest.mk "m" { uri := "data" } ⟨0, true⟩ [] [])) =
      Except.ok (sourceDefaultHash (Manifest.mk "m" { uri := "data" } ⟨0, true⟩ [] [])) :=
  C1_round_trip (Manifest.mk "m" { uri := "data" } ⟨0, true⟩ [] []) rfl rfl
    (fun a ha => absurd ha (List.not_mem_nil a))

/-- The spec used by the C1 counterexample: `compute_hash = False`. -/
def specNoHash : DataSourceSpec := { uri := "data", compute_hash := false }

/-- Counterexample to C1 as stated: a manifest whose source has
`compute_hash = False` does not survive the round trip - `to_dict` never
writes `compute_hash` and `from_dict` never reads it, so it comes back
`True`. -/
theorem C1_counterexample :
    Manifest.from_dict (Manifest.to_dict (Manifest.mk "m" specNoHash ⟨0, true⟩ [] [])) ≠
      Except.ok (Manifest.mk "m" specNoHash ⟨0, true⟩ [] []) := by
  intro h
  have h2 := congrArg
    (fun r => match r with
      | Except.ok mm => mm.source.compute_hash
      | Except.error _ => true) h
  exact Bool.noConfusion (show true = false from h2)

/-! ## C5: path printing / parsing round trip -/

/-- Well-formedness of a `PurePath` as produced by `PurePath.ofString`:
components are nonempty, not `"."` and contain no separator. -/
def pathWF (p : PurePath) : Prop :=
  ∀ s ∈ p.parts, s ≠ "" ∧ s ≠ "." ∧ '/' ∉ s.data

theorem splitSlash_no_slash (l : List Char) (h : '/' ∉ l) : splitSlash l = [l] := by
  induction l with
  | nil => rfl
  | cons c rest ih =>
    have hc : ¬c = '/' := fun hc => h (hc ▸ List.mem_cons_self c rest)
    have hr : '/' ∉ rest := fun hr => h (List.mem_cons_of_mem c hr)
    simp only [splitSlash, if_neg hc, ih hr]

theorem splitSlash_append (a b : List Char) (h : '/' ∉ a) :
    splitSlash (a ++ '/' :: b) = a :: splitSlash b := by
  induction a with
  | nil => simp [splitSlash]
  | cons c rest ih =>
    have hc : ¬c = '/' := fun hc => h (hc ▸ List.mem_cons_self c rest)
    have hr : '/' ∉ rest := fun hr => h (List.mem_cons_of_mem c hr)
    simp only [List.cons_append, splitSlash, if_neg hc, List.append_eq, ih hr]

theorem joinParts_cons (p0 : String) (rest : List String) :
    joinParts (p0 :: rest) =
      p0.data ++ (if rest.isEmpty then [] else '/' :: joinParts rest) := by
  cases rest with
  | nil => simp [joinParts]
  | cons q qs => simp [joinParts]

theorem splitSlash_joinParts (parts : List String)
    (h : ∀ s ∈ parts, s.data ≠ [] ∧ '/' ∉ s.data) (hne : parts ≠ []) :
    splitSlash (joinParts parts) = parts.map String.data := by
  induction parts with
  | nil => exact absurd rfl hne
  | cons p0 rest ih =>
    cases rest with
    | nil =>
      have h0 := h p0 (List.mem_cons_self p0 [])
      simp only [joinParts, List.map_cons, List.map_nil]
      exact splitSlash_no_slash p0.data h0.2
    | cons q qs =>
      have h0 := h p0 (List.mem_cons_self p0 (q :: qs))
      have hrest : ∀ s ∈ q :: qs, s.data ≠ [] ∧ '/' ∉ s.data :=
        fun s hs => h s (List.mem_cons_of_mem p0 hs)
      rw [joinParts_cons]
      simp only [List.isEmpty_cons, if_false, Bool.false_eq_true]
      rw [splitSlash_append p0.data (joinParts (q :: qs)) h0.2,
        ih hrest (List.cons_ne_nil q qs)]
      rfl

theorem stringMk_data (s : String) : String.mk s.data = s := by cases s; rfl

/-- Printing a well-formed path and re-parsing it yields the path again:
the second `Path(s).match(pat)` disjunct of `_matches_any` tests the same
path as the first. -/
theorem ofString_asPosix (p : PurePath) (h : pathWF p) :
    PurePath.ofString p.asPosix = p := by
  obtain ⟨abs, parts⟩ := p
  have hdata : ∀ s ∈ parts, s.data ≠ [] ∧ '/' ∉ s.data := by
    intro s hs
    rcases h s hs with ⟨h1, h2, h3⟩
    refine ⟨?_, h3⟩
    intro hd
    exact h1 (by cases s; simp at hd; simp [hd])
  have hfilter : ∀ s ∈ parts, (decide (s ≠ "" ∧ s ≠ ".") = true) := by
    intro s hs
    rcases h s hs with ⟨h1, h2, _⟩
    simp [h1, h2]
  have hmapmk : ∀ l : List String, List.map String.mk (List.map String.data l) = l := by
    intro l
    rw [List.map_map]
    refine List.map_congr_left ?_ |>.trans (List.map_id l)
    intro s _
    exact stringMk_data s
  cases abs with
  | true =>
    cases parts with
    | nil => rfl
    | cons q qs =>
      have hparts : ((splitSlash ('/' :: joinParts (q :: qs))).map
          (fun l => String.mk l)).filter (fun c => decide (c ≠ "" ∧ c ≠ ".")) =
          q :: qs := by
        rw [show splitSlash ('/' :: joinParts (q :: qs)) =
            [] :: splitSlash (joinParts (q :: qs)) by simp [splitSlash]]
        rw [splitSlash_joinParts (q :: qs) hdata (List.cons_ne_nil q qs)]
        rw [List.map_cons, show List.map (fun l => String.mk l) = List.map String.mk
          from rfl, hmapmk]
        rw [List.filter_cons]
        simp only [show (decide ((String.mk [] : String) ≠ "" ∧
            (String.mk [] : String) ≠ ".") : Bool) = false by decide,
          Bool.false_eq_true, if_false]
        exact List.filter_eq_self.mpr hfilter
      show PurePath.ofString (String.mk ('/' :: joinParts (q :: qs))) = _
      unfold PurePath.ofString
      rw [show (String.mk ('/' :: joinParts (q :: qs))).data =
        '/' :: joinParts (q :: qs) from rfl]
      rw [hparts]
      rfl
  | false =>
    cases parts with
    | nil => rfl
    | cons q qs =>
      have hq := hdata q (List.mem_cons_self q qs)
      have hhead : (joinParts (q :: qs)).head? = q.data.head? := by
        rw [joinParts_cons]
        cases hqs : (qs : List String).isEmpty with
        | true => simp
        | false => exact List.head?_append_of_ne_nil q.data hq.1
      have habs : (decide ((joinParts (q :: qs)).head? = some '/') : Bool) = false := by
        rw [hhead]
        cases hqd : q.data with
        | nil => exact absurd hqd hq.1
        | cons c cs =>
          have hc : ¬c = '/' := by
            intro hc
            exact hq.2 (by rw [hqd, hc]; exact List.mem_cons_self _ _)
          simp [hc]
      have hparts : ((splitSlash (joinParts (q :: qs))).map
          (fun l => String.mk l)).filter (fun c => decide (c ≠ "" ∧ c ≠ ".")) =
          q :: qs := by
        rw [splitSlash_joinParts (q :: qs) hdata (List.cons_ne_nil q qs)]
        rw [show List.map (fun l => String.mk l) = List.map String.mk from rfl, hmapmk]
        exact List.filter_eq_self.mpr hfilter
      show PurePath.ofString (String.mk (joinParts (q :: qs))) = _
      unfold PurePath.ofString
      rw [show (String.mk (joinParts (q :: qs))).data = joinParts (q :: qs) from rfl]
      rw [hparts, habs]

/-- For a well-formed path, the second `Path(s).match(pat)` call of the
filter tests the same path, so the disjunction collapses. -/
theorem matchBoth_eq_pathMatch (p : PurePath) (h : pathWF p) (pat : String) :
    matchBoth p pat = pathMatch p pat := by
  unfold matchBoth
  rw [ofString_asPosix p h]
  cases hm : pathMatch p pat with
  | error e => rfl
  | ok b =>
    cases b with
    | true => rfl
    | false => simp [Except.bind, hm]

/-! ## C5: glob matcher characterizations -/

theorem anySuffix_congr (f g : List Char → Bool) (h : ∀ t, f t = g t) :
    ∀ s, anySuffix f s = anySuffix g s := by
  intro s
  induction s with
  | nil => exact h []
  | cons c st ih => simp only [anySuffix, h, ih]

theorem anySuffix_iff (f : List Char → Bool) (s : List Char) :
    anySuffix f s = true ↔ ∃ t, t <:+ s ∧ f t = true := by
  induction s with
  | nil =>
    simp only [anySuffix]
    constructor
    · intro h
      exact ⟨[], List.suffix_rfl, h⟩
    · rintro ⟨t, ht, hf⟩
      rw [List.suffix_nil.mp ht] at hf
      exact hf
  | cons c st ih =>
    simp only [anySuffix, Bool.or_eq_true, ih]
    constructor
    · rintro (h | ⟨t, ht, hf⟩)
      · exact ⟨c :: st, List.suffix_rfl, h⟩
      · exact ⟨t, ht.trans (List.suffix_cons c st), hf⟩
    · rintro ⟨t, ht, hf⟩
      rcases List.suffix_cons_iff.mp ht with rfl | ht
      · exact Or.inl hf
      · exact Or.inr ⟨t, ht, hf⟩

/-- A character is glob-plain when it is none of the metacharacters. -/
def globPlain (c : Char) : Prop := ¬c = '*' ∧ ¬c = '?' ∧ ¬c = '['

instance (c : Char) : Decidable (globPlain c) := by
  unfold globPlain
  infer_instance

/-- On a pattern of plain characters the matcher is literal equality (at
the fuel `globMatch` supplies). -/
theorem globMatchF_lit (lit : List Char) (h : ∀ c ∈ lit, globPlain c) :
    ∀ t, globMatchF (lit.length + 1) lit t = decide (t = lit) := by
  induction lit with
  | nil =>
    intro t
    cases t <;> simp [globMatchF]
  | cons c pr ih =>
    intro t
    rcases h c (List.mem_cons_self c pr) with ⟨h1, h2, h3⟩
    have hpr : ∀ d ∈ pr, globPlain d := fun d hd => h d (List.mem_cons_of_mem c hd)
    have hstep : globMatchF (pr.length + 1 + 1) (c :: pr) t =
        (if c = '*' then anySuffix (globMatchF (pr.length + 1) pr) t
         else if c = '?' then
           (match t with
            | [] => false
            | _ :: st => globMatchF (pr.length + 1) pr st)
         else if c = '[' then
           (match parseClass pr with
            | some (neg, cls, rest) =>
              (match t with
               | [] => false
               | d :: st => (neg != classMatches d cls) && globMatchF (pr.length + 1) rest st)
            | Option.none =>
              (match t with
               | d :: st => (decide (d = '[')) && globMatchF (pr.length + 1) pr st
               | [] => false))
         else
           (match t with
            | [] => false
            | d :: st => (decide (c = d)) && globMatchF (pr.length + 1) pr st)) := rfl
    show globMatchF (pr.length + 1 + 1) (c :: pr) t = decide (t = c :: pr)
    rw [hstep, if_neg h1, if_neg h2, if_neg h3]
    cases t with
    | nil => simp
    | cons d st =>
      show (decide (c = d) && globMatchF (pr.length + 1) pr st) = decide (d :: st = c :: pr)
      rw [ih hpr st]
      by_cases hcd : c = d
      · subst hcd
        simp
      · simp only [decide_eq_false hcd, Bool.false_and, List.cons.injEq]
        exact (decide_eq_false (fun hand => hcd hand.1.symm)).symm

/-- `*` followed by a literal tail matches exactly the strings with that
literal suffix. -/
theorem globMatch_star_lit (lit : List Char) (h : ∀ c ∈ lit, globPlain c)
    (s : List Char) : globMatch ('*' :: lit) s = true ↔ ∃ pre, s = pre ++ lit := by
  show globMatchF (lit.length + 1 + 1) ('*' :: lit) s = true ↔ _
  rw [show globMatchF (lit.length + 1 + 1) ('*' :: lit) s =
    anySuffix (globMatchF (lit.length + 1) lit) s from rfl]
  rw [anySuffix_congr _ _ (globMatchF_lit lit h) s]
  rw [anySuffix_iff]
  constructor
  · rintro ⟨t, ht, hf⟩
    rcases ht with ⟨pre, rfl⟩
    exact ⟨pre, by simp at hf; rw [hf]⟩
  · rintro ⟨pre, rfl⟩
    exact ⟨lit, ⟨pre, rfl⟩, by simp⟩

/-- The `**` pattern component matches every component. -/
theorem fnmatch_star_star (t : String) : fnmatchcase t "**" = true := by
  have hlast : ∀ u : List Char, anySuffix (fun v => v.isEmpty) u = true := by
    intro u
    induction u with
    | nil => rfl
    | cons c us ih => simp [anySuffix, ih]
  have hstar : ∀ u : List Char, globMatchF 2 ['*'] u = true := by
    intro u
    show anySuffix (globMatchF 1 []) u = true
    rw [anySuffix_congr (globMatchF 1 []) (fun v => v.isEmpty) (fun v => rfl) u]
    exact hlast u
  show globMatchF 3 ['*', '*'] t.data = true
  show anySuffix (globMatchF 2 ['*']) t.data = true
  rw [anySuffix_congr (globMatchF 2 ['*']) (fun v => true) hstar t.data]
  induction t.data with
  | nil => rfl
  | cons c us ih => simp [anySuffix, ih]

/-- `fnmatch` against `*` followed by a plain extension is exactly the
suffix test. -/
theorem fnmatch_star_ext (name : String) (ext : List Char)
    (h : ∀ c ∈ ext, globPlain c) :
    fnmatchcase name (String.mk ('*' :: ext)) = true ↔
      ∃ pre, name.data = pre ++ ext := by
  show globMatch ('*' :: ext) name.data = true ↔ _
  exact globMatch_star_lit ext h name.data

/-! ## C5: `PurePath.match` characterizations -/

theorem fullParts_getLastD (p : PurePath) (hne : p.parts ≠ []) :
    p.fullParts.getLast?.getD "" = p.name := by
  unfold PurePath.fullParts PurePath.name
  rw [List.getLast?_append_of_ne_nil _ hne]

theorem matchParts_single (parts : List String) (pc : String) (hne : parts ≠ []) :
    matchParts parts [pc] = fnmatchcase (parts.getLast?.getD "") pc := by
  rcases hrev : parts.reverse with _ | ⟨x, xs⟩
  · exact absurd (List.reverse_eq_nil_iff.mp hrev) hne
  · have hx : parts.getLast? = some x := by
      rw [← List.head?_reverse, hrev]
      rfl
    unfold matchParts
    rw [hrev, hx]
    rw [show ([pc] : List String).reverse = [pc] from rfl]
    rw [List.zip_cons_cons, List.zip_nil_right, List.all_cons, List.all_nil]
    exact Bool.and_true _

theorem matchParts_starstar (parts : List String) (pext : String)
    (hlen : 2 ≤ parts.length) :
    matchParts parts ["**", pext] = fnmatchcase (parts.getLast?.getD "") pext := by
  rcases hrev : parts.reverse with _ | ⟨x, _ | ⟨y, rest⟩⟩
  · exfalso
    rw [List.reverse_eq_nil_iff.mp hrev] at hlen
    exact absurd hlen (by decide)
  · exfalso
    have : parts.length = 1 := by
      rw [← List.length_reverse, hrev]
      rfl
    rw [this] at hlen
    exact absurd hlen (by decide)
  · have hx : parts.getLast? = some x := by
      rw [← List.head?_reverse, hrev]
      rfl
    unfold matchParts
    rw [hrev, hx]
    rw [show (["**", pext] : List String).reverse = [pext, "**"] from rfl]
    rw [List.zip_cons_cons, List.zip_cons_cons, List.zip_nil_right,
      List.all_cons, List.all_cons, List.all_nil]
    show (fnmatchcase x pext && (fnmatchcase y "**" && true)) = fnmatchcase x pext
    rw [fnmatch_star_star y]
    simp

theorem ofString_starstar_ext (ext : List Char) (hslash : '/' ∉ ext) :
    PurePath.ofString (String.mk ('*' :: '*' :: '/' :: '*' :: ext)) =
      ⟨false, ["**", String.mk ('*' :: ext)]⟩ := by
  have hsplit : splitSlash ('*' :: '*' :: '/' :: '*' :: ext) =
      [['*', '*'], '*' :: ext] := by
    rw [show ('*' :: '*' :: '/' :: '*' :: ext : List Char) =
      ['*', '*'] ++ '/' :: ('*' :: ext) from rfl]
    rw [splitSlash_append ['*', '*'] ('*' :: ext) (by decide)]
    rw [splitSlash_no_slash ('*' :: ext)
      (fun hm => by rcases List.mem_cons.mp hm with h | h; exact absurd h (by decide); exact hslash h)]
  unfold PurePath.ofString
  rw [show (String.mk ('*' :: '*' :: '/' :: '*' :: ext)).data =
    '*' :: '*' :: '/' :: '*' :: ext from rfl]
  rw [hsplit]
  rfl

theorem fullParts_len_pos (p : PurePath) (hne : p.parts ≠ []) :
    1 ≤ p.fullParts.length := by
  unfold PurePath.fullParts
  rw [List.length_append]
  have := List.length_pos.mpr hne
  omega

/-- `PurePath.match` against a `**/*.<ext>` pattern: true exactly when the
path has at least two parts (root included) and its final component
fnmatches `*.<ext>`. -/
theorem pathMatch_starstar_ext (p : PurePath) (ext : List Char)
    (hslash : '/' ∉ ext) (hne : p.parts ≠ []) :
    pathMatch p (String.mk ('*' :: '*' :: '/' :: '*' :: ext)) =
      Except.ok (decide (2 ≤ p.fullParts.length) &&
        fnmatchcase p.name (String.mk ('*' :: ext))) := by
  unfold pathMatch
  rw [ofString_starstar_ext ext hslash]
  by_cases hl : 2 ≤ p.fullParts.length
  · rw [if_neg (by simp), if_neg (by simp)]
    rw [if_neg (by
      show ¬(["**", String.mk ('*' :: ext)] : List String).length > p.fullParts.length
      simp only [List.length_cons, List.length_nil]
      omega)]
    rw [matchParts_starstar p.fullParts (String.mk ('*' :: ext)) hl]
    rw [fullParts_getLastD p hne]
    rw [decide_eq_true hl, Bool.true_and]
  · rw [if_neg (by simp), if_neg (by simp)]
    rw [if_pos (by
      show (["**", String.mk ('*' :: ext)] : List String).length > p.fullParts.length
      simp only [List.length_cons, List.length_nil]
      omega)]
    rw [decide_eq_false hl, Bool.false_and]

theorem matchesAnyGo_single (p : PurePath) (pat : String) (b : Bool)
    (h : matchBoth p pat = Except.ok b) : matchesAnyGo p [pat] = Except.ok b := by
  cases b <;> simp [matchesAnyGo, h, Except.bind]

/-- The shared pattern loop accepts (with `Except.ok true`) exactly when
some pattern matches, provided no pattern raises. -/
theorem matchesAnyGo_ok_true_iff (p : PurePath) :
    ∀ pats : List String, (∀ pat ∈ pats, ∃ b, matchBoth p pat = Except.ok b) →
      (matchesAnyGo p pats = Except.ok true ↔
        ∃ pat ∈ pats, matchBoth p pat = Except.ok true) := by
  intro pats
  induction pats with
  | nil =>
    intro _
    simp [matchesAnyGo]
  | cons pat rest ih =>
    intro h
    obtain ⟨b, hb⟩ := h pat (List.mem_cons_self pat rest)
    have hrest := ih (fun q hq => h q (List.mem_cons_of_mem pat hq))
    cases b with
    | true =>
      simp only [matchesAnyGo, hb, Except.bind, if_true]
      constructor
      · intro _
        exact ⟨pat, List.mem_cons_self pat rest, hb⟩
      · intro _
        trivial
    | false =>
      simp only [matchesAnyGo, hb, Except.bind, if_false, Bool.false_eq_true]
      rw [hrest]
      constructor
      · rintro ⟨q, hq, hqt⟩
        exact ⟨q, List.mem_cons_of_mem pat hq, hqt⟩
      · rintro ⟨q, hq, hqt⟩
        rcases List.mem_cons.mp hq with rfl | hq
        · rw [hb] at hqt
          exact absurd (Except.ok.inj hqt) (by decide)
        · exact ⟨q, hq, hqt⟩

/-- Modelled from the spec: "Pattern matching must succeed against both the
path's final-component form and its full relative/absolute textual form" -
read as fnmatch of the glob against the two textual forms of the path. -/
def specDualFormMatch (p : PurePath) (pat : String) : Bool :=
  fnmatchcase p.name pat || fnmatchcase p.asPosix pat

/-- Claim C5 (amended): the filter excludes first and otherwise includes
iff the include list is empty/absent or some pattern matches; matching
follows `PurePath.match` right-anchored component semantics (single-component
patterns therefore match exactly the final component; the redundant second
`Path(s).match` call adds nothing); include `["**/*.txt"]` selects exactly
the files whose path has at least two components with final component
matching `*.txt`, and exclude `["**/*.bin"]` excludes exactly those with at
least two components matching `*.bin`. -/
theorem C5_filter_semantics :
    (∀ (fs : FileSystem) (source : DataSourceSpec) (p : PurePath)
        (baseRoot : Option PurePath) (st : List Artifact × List String),
      excluded p source.exclude_globs = Except.ok true →
      tryAddFile fs source p baseRoot st = Except.ok st)
    ∧ (∀ (fs : FileSystem) (source : DataSourceSpec) (p : PurePath)
        (baseRoot : Option PurePath) (st : List Artifact × List String),
      excluded p source.exclude_globs = Except.ok false →
      matchesAny p source.include_globs = Except.ok false →
      tryAddFile fs source p baseRoot st = Except.ok st)
    ∧ (∀ p : PurePath, matchesAny p Option.none = Except.ok true ∧
        matchesAny p (some []) = Except.ok true)
    ∧ (∀ (p : PurePath) (pats : List String), pats ≠ [] →
        (∀ pat ∈ pats, ∃ b, matchBoth p pat = Except.ok b) →
        (matchesAny p (some pats) = Except.ok true ↔
          ∃ pat ∈ pats, matchBoth p pat = Except.ok true))
    ∧ (∀ (p : PurePath) (pat : String) (pc : String), pathWF p → p.parts ≠ [] →
        (PurePath.ofString pat).absolute = false →
        (PurePath.ofString pat).parts = [pc] →
        matchBoth p pat = Except.ok (fnmatchcase p.name pc))
    ∧ (∀ p : PurePath, pathWF p → p.parts ≠ [] →
        (matchesAny p (some ["**/*.txt"]) = Except.ok true ↔
          (2 ≤ p.fullParts.length ∧ ∃ pre, p.name.data = pre ++ ".txt".data)))
    ∧ (∀ p : PurePath, pathWF p → p.parts ≠ [] →
        (excluded p (some ["**/*.bin"]) = Except.ok true ↔
          (2 ≤ p.fullParts.length ∧ ∃ pre, p.name.data = pre ++ ".bin".data))) := by
  have hsingle : ∀ (p : PurePath) (pat : String) (b : Bool),
      matchBoth p pat = Except.ok b →
      (matchesAny p (some [pat]) = Except.ok true ↔ b = true) := by
    intro p pat b hb
    show matchesAnyGo p [pat] = Except.ok true ↔ b = true
    rw [matchesAnyGo_single p pat b hb]
    constructor
    · intro h
      exact Except.ok.inj h
    · intro h
      rw [h]
  have hstarstar : ∀ (p : PurePath) (ext : List Char), pathWF p → p.parts ≠ [] →
      (∀ c ∈ ext, globPlain c) → '/' ∉ ext →
      (matchesAny p (some [String.mk ('*' :: '*' :: '/' :: '*' :: ext)]) =
          Except.ok true ↔
        (2 ≤ p.fullParts.length ∧ ∃ pre, p.name.data = pre ++ ext)) := by
    intro p ext hwf hne hplain hslash
    have hmb : matchBoth p (String.mk ('*' :: '*' :: '/' :: '*' :: ext)) =
        Except.ok (decide (2 ≤ p.fullParts.length) &&
          fnmatchcase p.name (String.mk ('*' :: ext))) := by
      rw [matchBoth_eq_pathMatch p hwf]
      exact pathMatch_starstar_ext p ext hslash hne
    rw [hsingle p _ _ hmb]
    rw [Bool.and_eq_true, decide_eq_true_eq]
    rw [fnmatch_star_ext p.name ext hplain]
  refine ⟨?_, ?_, ?_, ?_, ?_, ?_, ?_⟩
  · intro fs source p baseRoot st hexcl
    simp only [tryAddFile, hexcl, Except.bind, if_true]
  · intro fs source p baseRoot st hexcl hinc
    simp only [tryAddFile, hexcl, hinc, Except.bind, Bool.false_eq_true, if_false,
      Bool.not_false, if_true]
  · intro p
    exact ⟨rfl, rfl⟩
  · intro p pats hne h
    cases pats with
    | nil => exact absurd rfl hne
    | cons pat rest =>
      show matchesAnyGo p (pat :: rest) = Except.ok true ↔ _
      exact matchesAnyGo_ok_true_iff p (pat :: rest) h
  · intro p pat pc hwf hne habs hparts
    rw [matchBoth_eq_pathMatch p hwf]
    simp only [pathMatch]
    rw [habs, hparts]
    rw [if_neg (by simp), if_neg (by simp)]
    rw [if_neg (by
      show ¬([pc] : List String).length > p.fullParts.length
      simp only [List.length_cons, List.length_nil]
      have := fullParts_len_pos p hne
      omega)]
    rw [matchParts_single p.fullParts pc (by
      intro hfp
      have := fullParts_len_pos p hne
      rw [hfp] at this
      exact absurd this (by decide))]
    rw [fullParts_getLastD p hne]
  · intro p hwf hne
    have := hstarstar p ['.', 't', 'x', 't'] hwf hne (by decide) (by decide)
    exact this
  · intro p hwf hne
    show matchesAnyGo p ["**/*.bin"] = Except.ok true ↔ _
    have := hstarstar p ['.', 'b', 'i', 'n'] hwf hne (by decide) (by decide)
    exact this

instance (p : PurePath) : Decidable (pathWF p) := by
  unfold pathWF
  infer_instance

/-- Witness for C5's include-filter conjunct at the concrete two-component
path `a/b.txt`. -/
theorem C5_witness :
    matchesAny ⟨false, ["a", "b.txt"]⟩ (some ["**/*.txt"]) = Except.ok true ↔
      (2 ≤ (PurePath.fullParts ⟨false, ["a", "b.txt"]⟩).length ∧
        ∃ pre, (PurePath.name ⟨false, ["a", "b.txt"]⟩).data = pre ++ ".txt".data) :=
  C5_filter_semantics.2.2.2.2.2.1 ⟨false, ["a", "b.txt"]⟩ (by decide) (by decide)

/-- Counterexample to C5 as stated: on the path `ab/c` with the pattern
`a*c`, matching against the full textual form succeeds (`fnmatch` lets `*`
cross the separator), so the spec's dual-form rule matches - but the code's
`Path.match` compares the pattern against the final component only and
rejects, so the include filter `["a*c"]` does not select the file. -/
theorem C5_counterexample :
    specDualFormMatch ⟨false, ["ab", "c"]⟩ "a*c" = true
    ∧ matchesAny ⟨false, ["ab", "c"]⟩ (some ["a*c"]) = Except.ok false :=
  ⟨rfl, rfl⟩

end Neurolab
